import Mathlib

/-! Verification development for the YahooFinance downloader.

This file gives a shallow embedding of the extraction/normalization pipeline
implemented in `src/main.py` (functions `get_stock_data` and
`extract_stock_data`) together with the fatal-error notification state
machine of `main` (src/main.py:286-319) backed by the tracking file of
`UtilityFunctions.fatal_error_tracking` (src/utility.py:272-296), and proves
the spec-level properties about them.

Modelling conventions:
* Python floats are modelled as rationals (the only arithmetic performed on
  prices is division by the constant divisor 1 or 100, which is exact).
* A missing/NaN close value is modelled as `none` (`pd.isna` true).
* Python strings are Lean `String`s; the string primitives the source uses
  (`str.upper`, `str.replace(",", " ")`, tuple comparison of strings in
  `list.sort`) are re-implemented over `String.data` as structurally
  recursive functions so that they compute by kernel reduction.
-/

namespace YahooFinance

/-- Python `str.upper()` applied character-wise (src/main.py:176, currency
codes are ASCII). -/
def pyUpper (s : String) : String :=
  String.mk (s.data.map Char.toUpper)

/-- Python `symbol_name.replace(",", " ")` (src/main.py:173).  The pattern is
the single character `,`, so the substring replacement coincides with a
character map. -/
def pyReplaceCommaSpace (s : String) : String :=
  String.mk (s.data.map (fun c => if c = ',' then ' ' else c))

/-- Test whether the first character list is a leading segment of the
second. -/
def charsIsPrefixOf : List Char → List Char → Bool
  | [], _ => true
  | _ :: _, [] => false
  | a :: as, b :: bs => a == b && charsIsPrefixOf as bs

/-- Python `s.startswith(pre)` (src/main.py:112). -/
def pyStartsWith (s pre : String) : Bool :=
  charsIsPrefixOf pre.data s.data

/-- Strict lexicographic comparison of two character lists by code point:
the order Python uses to compare `str` values. -/
def charsLT : List Char → List Char → Bool
  | [], [] => false
  | [], _ :: _ => true
  | _ :: _, [] => false
  | a :: as, b :: bs =>
      if a < b then true else if b < a then false else charsLT as bs

/-- Python string strict comparison `s1 < s2`. -/
def strLT (s1 s2 : String) : Bool :=
  charsLT s1.data s2.data

/-- Python string comparison `s1 <= s2` (strictly less or equal). -/
def strLE (s1 s2 : String) : Bool :=
  strLT s1 s2 || s1 == s2

/-- One entry of the error list produced by `get_yf_errors`
(src/main.py:32-38): a dict with keys `Symbol` and `Error`. -/
structure ProviderError where
  Symbol : String
  Error : String
deriving DecidableEq

/-- The result of `yfinance.Ticker.get_info()` restricted to the three keys
the source reads (src/main.py:171-176); `none` models an absent key. -/
structure MetaInfo where
  displayName : Option String
  longName : Option String
  currency : Option String
deriving DecidableEq

/-- One row of a symbol's DataFrame as consumed by the extraction loop
(src/main.py:184-195).  `good date close` carries the formatted trading date
and the close value (`none` when `pd.isna(row["Close"])` holds); `bad` marks
a row whose processing raises one of the exceptions caught at
src/main.py:200 (`KeyError`, `ValueError`, `TypeError`). -/
inductive Row where
  | good (date : String) (close : Option ℚ)
  | bad
deriving DecidableEq

/-- The output record built at src/main.py:185-195: keys Symbol, Date, Name,
Currency, Price.  Name and Currency are `none` when the metadata lookup
failed. -/
structure PriceRecord where
  Symbol : String
  Date : String
  Name : Option String
  Currency : Option String
  Price : ℚ
deriving DecidableEq

/-- The `symbol_name` computed at src/main.py:171-173:
`info.get("displayName", info.get("longName", "Unknown Name"))` with commas
replaced by spaces. -/
def symbolNameOf (info : MetaInfo) : String :=
  pyReplaceCommaSpace (info.displayName.getD (info.longName.getD "Unknown Name"))

/-- The `raw_currency` of src/main.py:174: `info.get("currency", "USD")`. -/
def rawCurrencyOf (info : MetaInfo) : String :=
  info.currency.getD "USD"

/-- The `symbol_divisor` of src/main.py:175:
`100 if raw_currency == "GBp" else 1`. -/
def symbolDivisorOf (info : MetaInfo) : ℚ :=
  if rawCurrencyOf info = "GBp" then 100 else 1

/-- The `symbol_currency` of src/main.py:176: `raw_currency.upper()`. -/
def symbolCurrencyOf (info : MetaInfo) : String :=
  pyUpper (rawCurrencyOf info)

/-- The record price of src/main.py:190:
`float(row["Close"]) / symbol_divisor if not pd.isna(row["Close"]) else 0.0`. -/
def rowPrice (divisor : ℚ) (close : Option ℚ) : ℚ :=
  match close with
  | some c => c / divisor
  | none => 0

/-- The inner row loop of src/main.py:183-203 for one symbol: builds a record
per row and appends it when `record["Price"] != 0` (src/main.py:197); a `bad`
row models the caught exception, which keeps the records already emitted,
abandons the remaining rows and reports `true` in the second component (the
`error_count += 1; continue` path at src/main.py:200-203). -/
def processRows (symbol : String) (name currency : Option String) (divisor : ℚ) :
    List Row → List PriceRecord × Bool
  | [] => ([], false)
  | Row.good date close :: rest =>
      let price := rowPrice divisor close
      let tail := processRows symbol name currency divisor rest
      (if price ≠ 0 then ⟨symbol, date, name, currency, price⟩ :: tail.1 else tail.1,
        tail.2)
  | Row.bad :: _ => ([], true)

/-- The inputs of one call to `extract_stock_data` (src/main.py:130):
the requested symbol list, the downloaded data (`data symbol = none` models
`symbol not in data.columns.get_level_values(0)`, src/main.py:160), the
per-symbol metadata lookup (`metadata symbol = none` models
`ticker.get_info()` raising one of the exceptions caught at src/main.py:178,
i.e. `KeyError`, `AttributeError` or `TypeError`), and the error list passed
in from the download step. -/
structure ExtractInput where
  symbols : List String
  data : String → Option (List Row)
  metadata : String → Option MetaInfo
  errorList : List ProviderError

/-- The per-symbol `(symbol_name, symbol_divisor, symbol_currency)` triple:
the defaults of src/main.py:151-153 when the metadata lookup raises, the
values of src/main.py:171-176 when it succeeds. -/
def symbolMeta (inp : ExtractInput) (symbol : String) : Option String × ℚ × Option String :=
  match inp.metadata symbol with
  | some info => (some (symbolNameOf info), symbolDivisorOf info, some (symbolCurrencyOf info))
  | none => (none, 1, none)

/-- The whole body of the per-symbol iteration of src/main.py:150-203:
a symbol named in the error list is skipped (src/main.py:156-158), a symbol
absent from the data is skipped (src/main.py:160-161), otherwise its rows are
processed with the symbol's metadata. -/
def symbolOutput (inp : ExtractInput) (symbol : String) : List PriceRecord × Bool :=
  if inp.errorList.any (fun e => e.Symbol == symbol) then ([], false)
  else
    match inp.data symbol with
    | none => ([], false)
    | some rows =>
        let m := symbolMeta inp symbol
        processRows symbol m.1 m.2.2 m.2.1 rows

/-- Comparison function of the final sort of src/main.py:206:
`stock_records.sort(key=operator.itemgetter("Date", "Symbol"))`, i.e. the
lexicographic comparison of the string pairs (Date, Symbol). -/
def recordKeyLE (r1 r2 : PriceRecord) : Bool :=
  strLT r1.Date r2.Date || (r1.Date == r2.Date && strLE r1.Symbol r2.Symbol)

/-- One iteration of the symbol loop of src/main.py:150-203 as seen by the
accumulators `stock_records` and `error_count`. -/
def extractStep (inp : ExtractInput) (acc : List PriceRecord × Nat) (symbol : String) :
    List PriceRecord × Nat :=
  let so := symbolOutput inp symbol
  (acc.1 ++ so.1, acc.2 + if so.2 then 1 else 0)

/-- The function `extract_stock_data` of src/main.py:130-208: fold the
per-symbol processing over the requested symbols in caller order,
accumulating records and the error count, then sort the records by
(Date, Symbol).  Python `list.sort` is a stable sort, as is
`List.mergeSort`. -/
def extract_stock_data (inp : ExtractInput) : List PriceRecord × Nat :=
  let res := inp.symbols.foldl (extractStep inp) ([], 0)
  (res.1.mergeSort recordKeyLE, res.2)

/-- Specification view of the record accumulation of the fold: the records of
the per-symbol outputs concatenated in symbol order. -/
def allRecords (inp : ExtractInput) : List String → List PriceRecord
  | [] => []
  | s :: rest => (symbolOutput inp s).1 ++ allRecords inp rest

/-- Specification view of the error-count accumulation of the fold. -/
def totalErrors (inp : ExtractInput) : List String → Nat
  | [] => 0
  | s :: rest => (if (symbolOutput inp s).2 then 1 else 0) + totalErrors inp rest

/-! Model of the error classification performed by `get_stock_data` after a
successful download (src/main.py:106-127).  The function inspects the error
list returned by `get_yf_errors` (which is a list of dicts whose `Error`
values are strings).  The rate-limit check uses `str.startswith`, which
exists; the interval and period checks call `error["Error"].contains(...)`
(src/main.py:116 and 120), but Python `str` has no method `contains`, so
evaluating the generator given to `any` raises `AttributeError` at the first
element whenever the list is non-empty, while `any` over an empty generator
returns `False` without touching any element.  The raised `AttributeError`
is caught by the blanket `except Exception` at src/main.py:124, which logs a
fatal error and then falls through to `return data, error_list` at
src/main.py:127. -/

/-- What `get_stock_data` returns to `main` once the download succeeded:
either `(None, 0)` (no data, extraction skipped) or the downloaded data
paired with the error list. -/
inductive GetStockDataResult where
  | noData
  | dataWithErrors (errors : List ProviderError)
deriving DecidableEq

/-- Evaluation of `any(error["Error"].contains(marker) for error in error_list)`
(src/main.py:116,120).  `Except.error ()` models the `AttributeError` raised
because Python `str` has no method `contains`; the marker is never reached. -/
def anyErrorContains (_marker : String) (errorList : List ProviderError) :
    Except Unit Bool :=
  match errorList with
  | [] => Except.ok false
  | _ :: _ => Except.error ()

/-- The error-classification tail of `get_stock_data` (src/main.py:106-127),
for a run whose download returned non-empty, column-complete data: the
rate-limit prefix check returns `(None, 0)` when it fires; each `.contains`
check either returns `(None, 0)` (marker found), falls through (marker
absent), or raises, and a raise is caught at src/main.py:124 after which the
function returns `(data, error_list)` at src/main.py:127. -/
def get_stock_data_errorCheck (errorList : List ProviderError) : GetStockDataResult :=
  if errorList.any (fun e => pyStartsWith e.Error "YFRateLimitError") then
    GetStockDataResult.noData
  else
    match anyErrorContains "Invalid input - interval" errorList with
    | Except.error _ => GetStockDataResult.dataWithErrors errorList
    | Except.ok true => GetStockDataResult.noData
    | Except.ok false =>
        match anyErrorContains "YFInvalidPeriodError" errorList with
        | Except.error _ => GetStockDataResult.dataWithErrors errorList
        | Except.ok true => GetStockDataResult.noData
        | Except.ok false => GetStockDataResult.dataWithErrors errorList

/-! Model of the fatal-error notification state machine.  The persisted state
is the tracking file of `UtilityFunctions.fatal_error_tracking`
(src/utility.py:272-296): `none` means the file is absent (state Clear),
`some m` means it holds message `m` (state Failing).  One run of `main`
(src/main.py:286-319) either ends with a non-empty error condition
(`error_message is not None`) — it sends a failure email only when the
tracking state is Clear (src/main.py:300-302), records the message
(src/main.py:305) and exits 1 before reaching the recovery check — or it
completes cleanly, in which case a recovery email is sent and the state is
cleared exactly when the previous state was Failing (src/main.py:316-319). -/

/-- Observable outcome of one run: how many failure-notification emails and
recovery-notification emails were sent, and the persisted state left behind. -/
structure RunOutput where
  failEmails : Nat
  recoveryEmails : Nat
  finalState : Option String
deriving DecidableEq

/-- One step of the fatal-error state machine (src/main.py:286-319 together
with the file semantics of src/utility.py:272-296).  `errorMessage` is the
`error_message` value at src/main.py:298: `some m` when the run ends with a
non-empty error condition, `none` when it completes with no errors. -/
def runStep (state : Option String) (errorMessage : Option String) : RunOutput :=
  match errorMessage with
  | some msg =>
      { failEmails := if state = none then 1 else 0
        recoveryEmails := 0
        finalState := some msg }
  | none =>
      match state with
      | some _ => { failEmails := 0, recoveryEmails := 1, finalState := none }
      | none => { failEmails := 0, recoveryEmails := 0, finalState := none }

/-- Lexicographic comparison of the (Date, Symbol) string pairs, as a
proposition: the order the spec states for the extraction output. -/
def dateSymbolLE (r1 r2 : PriceRecord) : Prop :=
  strLT r1.Date r2.Date = true ∨ (r1.Date = r2.Date ∧ strLE r1.Symbol r2.Symbol = true)

/-! ### Concrete sample inputs used to exercise the theorems below -/

/-- A one-symbol run with a single valid bar and a failing metadata lookup. -/
def sampleMetaFail : ExtractInput :=
  ⟨["AAPL"],
    fun t => if t = "AAPL" then some [Row.good "2024-01-02" (some 100)] else none,
    fun _ => none,
    []⟩

/-- Metadata of a London-listed symbol quoted in pence. -/
def sampleGbpInfo : MetaInfo :=
  ⟨some "Barclays", none, some "GBp"⟩

/-- A one-symbol run quoted in pence with one 150-pence bar. -/
def sampleGbp : ExtractInput :=
  ⟨["BARC.L"],
    fun t => if t = "BARC.L" then some [Row.good "2024-01-02" (some 150)] else none,
    fun t => if t = "BARC.L" then some sampleGbpInfo else none,
    []⟩

/-- A two-symbol run where the second symbol is named in the error list even
though the data holds bars for it. -/
def sampleErrSkip : ExtractInput :=
  ⟨["AAPL", "MSFT"],
    fun t =>
      if t = "AAPL" then some [Row.good "2024-01-02" (some 100)]
      else if t = "MSFT" then some [Row.good "2024-01-02" (some 50)] else none,
    fun _ => none,
    [⟨"MSFT", "YFPricesMissingError: no price data found"⟩]⟩

/-- A two-symbol run where the first symbol's frame raises on its second
row. -/
def sampleRowErr : ExtractInput :=
  ⟨["AAPL", "MSFT"],
    fun t =>
      if t = "AAPL" then
        some [Row.good "2024-01-02" (some 10), Row.bad, Row.good "2024-01-03" (some 20)]
      else if t = "MSFT" then some [Row.good "2024-01-02" (some 50)] else none,
    fun _ => none,
    []⟩

/-- The error list of a run whose download reported an invalid interval. -/
def sampleIntervalErrors : List ProviderError :=
  [⟨"MSFT", "Invalid input - interval=2h is not supported"⟩]

/-! ### Order lemmas for the final sort -/

theorem charsLT_trans : ∀ (a b c : List Char), charsLT a b = true → charsLT b c = true →
    charsLT a c = true := by
  intro a
  induction a with
  | nil =>
    intro b c hab hbc
    cases b with
    | nil => simp [charsLT] at hab
    | cons y ys =>
      cases c with
      | nil => simp [charsLT] at hbc
      | cons z zs => rfl
  | cons x xs ih =>
    intro b c hab hbc
    cases b with
    | nil => simp [charsLT] at hab
    | cons y ys =>
      cases c with
      | nil => simp [charsLT] at hbc
      | cons z zs =>
        simp only [charsLT] at hab hbc ⊢
        by_cases hxy : x < y
        · by_cases hyz : y < z
          · simp [lt_trans hxy hyz]
          · rw [if_neg hyz] at hbc
            by_cases hzy : z < y
            · rw [if_pos hzy] at hbc
              simp at hbc
            · have hxz : x < z := lt_of_lt_of_le hxy (le_of_not_lt hzy)
              simp [hxz]
        · rw [if_neg hxy] at hab
          by_cases hyx : y < x
          · rw [if_pos hyx] at hab
            simp at hab
          · rw [if_neg hyx] at hab
            have hxy2 : x = y := le_antisymm (le_of_not_lt hyx) (le_of_not_lt hxy)
            subst hxy2
            by_cases hxz : x < z
            · simp [hxz]
            · rw [if_neg hxz] at hbc ⊢
              by_cases hzx : z < x
              · rw [if_pos hzx] at hbc
                simp at hbc
              · rw [if_neg hzx] at hbc ⊢
                exact ih ys zs hab hbc

theorem charsLT_trichotomy : ∀ (a b : List Char),
    charsLT a b = true ∨ a = b ∨ charsLT b a = true := by
  intro a
  induction a with
  | nil =>
    intro b
    cases b with
    | nil => exact Or.inr (Or.inl rfl)
    | cons y ys => exact Or.inl rfl
  | cons x xs ih =>
    intro b
    cases b with
    | nil => exact Or.inr (Or.inr rfl)
    | cons y ys =>
      rcases lt_trichotomy x y with h | h | h
      · exact Or.inl (by simp [charsLT, h])
      · subst h
        rcases ih ys with h2 | h2 | h2
        · exact Or.inl (by simp [charsLT, h2])
        · exact Or.inr (Or.inl (by rw [h2]))
        · exact Or.inr (Or.inr (by simp [charsLT, h2]))
      · exact Or.inr (Or.inr (by simp [charsLT, h, not_lt_of_gt h]))

theorem recordKeyLE_true_iff (r1 r2 : PriceRecord) :
    recordKeyLE r1 r2 = true ↔ dateSymbolLE r1 r2 := by
  simp [recordKeyLE, dateSymbolLE, Bool.or_eq_true, Bool.and_eq_true, beq_iff_eq]

theorem strLE_true_iff (s1 s2 : String) :
    strLE s1 s2 = true ↔ charsLT s1.data s2.data = true ∨ s1 = s2 := by
  simp [strLE, strLT, Bool.or_eq_true, beq_iff_eq]

theorem recordKeyLE_trans (a b c : PriceRecord) (h1 : recordKeyLE a b = true)
    (h2 : recordKeyLE b c = true) : recordKeyLE a c = true := by
  rw [recordKeyLE_true_iff] at h1 h2 ⊢
  unfold dateSymbolLE at h1 h2 ⊢
  simp only [strLT, strLE_true_iff] at h1 h2 ⊢
  rcases h1 with h1 | ⟨hd1, hs1⟩
  · rcases h2 with h2 | ⟨hd2, hs2⟩
    · exact Or.inl (charsLT_trans _ _ _ h1 h2)
    · exact Or.inl (by rw [← hd2]; exact h1)
  · rcases h2 with h2 | ⟨hd2, hs2⟩
    · exact Or.inl (by rw [hd1]; exact h2)
    · refine Or.inr ⟨hd1.trans hd2, ?_⟩
      rcases hs1 with hs1 | hs1
      · rcases hs2 with hs2 | hs2
        · exact Or.inl (charsLT_trans _ _ _ hs1 hs2)
        · exact Or.inl (by rw [← hs2]; exact hs1)
      · rcases hs2 with hs2 | hs2
        · exact Or.inl (by rw [hs1]; exact hs2)
        · exact Or.inr (hs1.trans hs2)

theorem recordKeyLE_total (a b : PriceRecord) :
    (recordKeyLE a b || recordKeyLE b a) = true := by
  simp only [Bool.or_eq_true, recordKeyLE_true_iff]
  unfold dateSymbolLE
  simp only [strLT, strLE_true_iff]
  rcases charsLT_trichotomy a.Date.data b.Date.data with h | h | h
  · exact Or.inl (Or.inl h)
  · have hd : a.Date = b.Date := String.ext h
    rcases charsLT_trichotomy a.Symbol.data b.Symbol.data with h2 | h2 | h2
    · exact Or.inl (Or.inr ⟨hd, Or.inl h2⟩)
    · have hs : a.Symbol = b.Symbol := String.ext h2
      exact Or.inl (Or.inr ⟨hd, Or.inr hs⟩)
    · exact Or.inr (Or.inr ⟨hd.symm, Or.inl h2⟩)
  · exact Or.inr (Or.inl h)

/-- C1: for every extraction run, the record sequence returned by
extract_stock_data is sorted ascending by the pair (Date, Symbol)
lexicographically: every two adjacent records r1, r2 of the output satisfy
(r1.Date, r1.Symbol) <= (r2.Date, r2.Symbol), for any input symbol order,
bar order and error list, including when several symbols share dates. -/
theorem extract_output_sorted_by_date_symbol (inp : ExtractInput) :
    List.Chain' dateSymbolLE (extract_stock_data inp).1 := by
  have hp := @List.sorted_mergeSort PriceRecord recordKeyLE recordKeyLE_trans
    recordKeyLE_total (inp.symbols.foldl (extractStep inp) ([], 0)).1
  have hq : List.Pairwise dateSymbolLE
      ((inp.symbols.foldl (extractStep inp) ([], 0)).1.mergeSort recordKeyLE) :=
    hp.imp (fun hab => (recordKeyLE_true_iff _ _).mp hab)
  exact hq.chain'

/-- Witness for C1: the sorted-output property evaluated at a concrete
two-symbol run. -/
theorem extract_output_sorted_by_date_symbol_witness :
    List.Chain' dateSymbolLE (extract_stock_data sampleErrSkip).1 :=
  extract_output_sorted_by_date_symbol sampleErrSkip

/-! ### Structural lemmas about the row loop and the symbol fold -/

theorem mem_processRows {symbol : String} {name currency : Option String}
    {divisor : ℚ} {rows : List Row} {r : PriceRecord}
    (h : r ∈ (processRows symbol name currency divisor rows).1) :
    r.Symbol = symbol ∧ r.Name = name ∧ r.Currency = currency ∧ r.Price ≠ 0 ∧
      ∃ c, Row.good r.Date (some c) ∈ rows ∧ r.Price = c / divisor := by
  induction rows with
  | nil => simp [processRows] at h
  | cons row rest ih =>
    cases row with
    | bad => simp [processRows] at h
    | good date close =>
      simp only [processRows] at h
      by_cases hp : rowPrice divisor close ≠ 0
      · rw [if_pos hp] at h
        rcases List.mem_cons.mp h with h1 | h2
        · subst h1
          cases close with
          | none => simp [rowPrice] at hp
          | some c => exact ⟨rfl, rfl, rfl, hp, c, List.mem_cons_self _ _, rfl⟩
        · obtain ⟨hs, hn, hc, hpz, c, hm, hpr⟩ := ih h2
          exact ⟨hs, hn, hc, hpz, c, List.mem_cons_of_mem _ hm, hpr⟩
      · rw [if_neg hp] at h
        obtain ⟨hs, hn, hc, hpz, c, hm, hpr⟩ := ih h
        exact ⟨hs, hn, hc, hpz, c, List.mem_cons_of_mem _ hm, hpr⟩

theorem processRows_good_none (symbol : String) (name currency : Option String)
    (divisor : ℚ) (date : String) (rest : List Row) :
    processRows symbol name currency divisor (Row.good date none :: rest)
      = processRows symbol name currency divisor rest := by
  simp [processRows, rowPrice]

theorem processRows_snd_metaFree (symbol : String) (rows : List Row)
    (n1 c1 : Option String) (d1 : ℚ) (n2 c2 : Option String) (d2 : ℚ) :
    (processRows symbol n1 c1 d1 rows).2 = (processRows symbol n2 c2 d2 rows).2 := by
  induction rows with
  | nil => rfl
  | cons row rest ih =>
    cases row with
    | bad => rfl
    | good date close => simpa [processRows] using ih

theorem processRows_fst_length (symbol : String) (rows : List Row)
    (n1 c1 : Option String) (d1 : ℚ) (n2 c2 : Option String) (d2 : ℚ)
    (h1 : d1 ≠ 0) (h2 : d2 ≠ 0) :
    (processRows symbol n1 c1 d1 rows).1.length
      = (processRows symbol n2 c2 d2 rows).1.length := by
  induction rows with
  | nil => rfl
  | cons row rest ih =>
    cases row with
    | bad => rfl
    | good date close =>
      cases close with
      | none => simpa [processRows, rowPrice] using ih
      | some c =>
        simp only [processRows, rowPrice]
        by_cases hc : c = 0
        · subst hc
          simp [ih]
        · have e1 : c / d1 ≠ 0 := div_ne_zero hc h1
          have e2 : c / d2 ≠ 0 := div_ne_zero hc h2
          simp [e1, e2, ih]

theorem processRows_append_bad {symbol : String} {name currency : Option String}
    {divisor : ℚ} {rows rest : List Row} (h : Row.bad ∉ rows) :
    processRows symbol name currency divisor (rows ++ Row.bad :: rest)
      = ((processRows symbol name currency divisor rows).1, true) := by
  induction rows with
  | nil => simp [processRows]
  | cons row tl ih =>
    cases row with
    | bad => exact absurd (List.mem_cons_self _ _) h
    | good date close =>
      have h2 : Row.bad ∉ tl := fun hm => h (List.mem_cons_of_mem _ hm)
      simp only [List.cons_append, processRows, List.append_eq, ih h2]

theorem processRows_snd_false {symbol : String} {name currency : Option String}
    {divisor : ℚ} {rows : List Row} (h : Row.bad ∉ rows) :
    (processRows symbol name currency divisor rows).2 = false := by
  induction rows with
  | nil => rfl
  | cons row tl ih =>
    cases row with
    | bad => exact absurd (List.mem_cons_self _ _) h
    | good date close =>
      have h2 : Row.bad ∉ tl := fun hm => h (List.mem_cons_of_mem _ hm)
      simpa [processRows] using ih h2

theorem foldl_extractStep (inp : ExtractInput) :
    ∀ (syms : List String) (acc : List PriceRecord × Nat),
      syms.foldl (extractStep inp) acc
        = (acc.1 ++ allRecords inp syms, acc.2 + totalErrors inp syms) := by
  intro syms
  induction syms with
  | nil =>
    intro acc
    simp [allRecords, totalErrors]
  | cons s rest ih =>
    intro acc
    simp [List.foldl_cons, ih, extractStep, allRecords, totalErrors,
      List.append_assoc, Nat.add_assoc]

theorem extract_stock_data_eq (inp : ExtractInput) :
    extract_stock_data inp
      = ((allRecords inp inp.symbols).mergeSort recordKeyLE,
          totalErrors inp inp.symbols) := by
  simp [extract_stock_data, foldl_extractStep inp inp.symbols ([], 0)]

theorem mem_allRecords {inp : ExtractInput} {r : PriceRecord} :
    ∀ {syms : List String},
      r ∈ allRecords inp syms ↔ ∃ s ∈ syms, r ∈ (symbolOutput inp s).1 := by
  intro syms
  induction syms with
  | nil => simp [allRecords]
  | cons s rest ih =>
    simp [allRecords, ih, List.mem_append, or_and_right, exists_or]

theorem mem_extract_records {inp : ExtractInput} {r : PriceRecord} :
    r ∈ (extract_stock_data inp).1 ↔ ∃ s ∈ inp.symbols, r ∈ (symbolOutput inp s).1 := by
  rw [extract_stock_data_eq]
  simp only [List.mem_mergeSort]
  exact mem_allRecords

theorem mem_symbolOutput {inp : ExtractInput} {s : String} {r : PriceRecord}
    (h : r ∈ (symbolOutput inp s).1) :
    inp.errorList.any (fun e => e.Symbol == s) = false ∧
      ∃ rows, inp.data s = some rows ∧
        r.Symbol = s ∧ r.Name = (symbolMeta inp s).1 ∧
        r.Currency = (symbolMeta inp s).2.2 ∧ r.Price ≠ 0 ∧
        ∃ c, Row.good r.Date (some c) ∈ rows ∧ r.Price = c / (symbolMeta inp s).2.1 := by
  unfold symbolOutput at h
  cases hx : inp.errorList.any (fun e => e.Symbol == s) with
  | true =>
    rw [hx] at h
    simp at h
  | false =>
    rw [hx] at h
    simp only [Bool.false_eq_true, if_false] at h
    cases hd : inp.data s with
    | none =>
      rw [hd] at h
      simp at h
    | some rows =>
      rw [hd] at h
      obtain ⟨hs, hn, hc, hpz, c, hm, hpr⟩ := mem_processRows h
      exact ⟨rfl, rows, rfl, hs, hn, hc, hpz, c, hm, hpr⟩

theorem allRecords_congr {inp1 inp2 : ExtractInput}
    (h : ∀ t, (symbolOutput inp1 t).1 = (symbolOutput inp2 t).1) :
    ∀ syms, allRecords inp1 syms = allRecords inp2 syms := by
  intro syms
  induction syms with
  | nil => rfl
  | cons s rest ih => simp [allRecords, h s, ih]

theorem totalErrors_congr {inp1 inp2 : ExtractInput}
    (h : ∀ t, (symbolOutput inp1 t).2 = (symbolOutput inp2 t).2) :
    ∀ syms, totalErrors inp1 syms = totalErrors inp2 syms := by
  intro syms
  induction syms with
  | nil => rfl
  | cons s rest ih => simp [totalErrors, h s, ih]

theorem countP_allRecords_congr {inp1 inp2 : ExtractInput} {p : PriceRecord → Bool}
    (h : ∀ t, (symbolOutput inp1 t).1.countP p = (symbolOutput inp2 t).1.countP p) :
    ∀ syms, (allRecords inp1 syms).countP p = (allRecords inp2 syms).countP p := by
  intro syms
  induction syms with
  | nil => rfl
  | cons s rest ih => simp [allRecords, List.countP_append, h s, ih]

theorem totalErrors_offset {inp1 inp2 : ExtractInput} {s : String}
    (hne : ∀ t, t ≠ s → (symbolOutput inp1 t).2 = (symbolOutput inp2 t).2)
    (h1 : (symbolOutput inp1 s).2 = true) (h2 : (symbolOutput inp2 s).2 = false) :
    ∀ syms : List String,
      totalErrors inp1 syms = totalErrors inp2 syms + syms.count s := by
  intro syms
  induction syms with
  | nil => rfl
  | cons t rest ih =>
    by_cases ht : t = s
    · subst ht
      simp only [totalErrors, List.count_cons, ih]
      rw [h1, h2]
      simp
      omega
    · have hts := hne t ht
      have hbeq : (t == s) = false := by
        simp [beq_iff_eq, ht]
      simp only [totalErrors, List.count_cons, hbeq, ih, hts]
      simp
      omega

theorem symbolOutput_snd_metaFree (inp : ExtractInput)
    (m2 : String → Option MetaInfo) (t : String) :
    (symbolOutput { inp with metadata := m2 } t).2 = (symbolOutput inp t).2 := by
  unfold symbolOutput
  cases hany : inp.errorList.any (fun e => e.Symbol == t) with
  | true => simp [hany]
  | false =>
    simp only [hany, Bool.false_eq_true, if_false]
    cases hd : inp.data t with
    | none => rfl
    | some rows =>
      simp only
      exact processRows_snd_metaFree t rows _ _ _ _ _ _

theorem symbolOutput_meta_update_ne {inp : ExtractInput} {s : String}
    (v : Option MetaInfo) {t : String} (h : t ≠ s) :
    symbolOutput { inp with metadata := fun u => if u = s then v else inp.metadata u } t
      = symbolOutput inp t := by
  simp [symbolOutput, symbolMeta, h]

theorem symbolOutput_data_update_ne {inp : ExtractInput} {s : String}
    (v : Option (List Row)) {t : String} (h : t ≠ s) :
    symbolOutput { inp with data := fun u => if u = s then v else inp.data u } t
      = symbolOutput inp t := by
  simp [symbolOutput, symbolMeta, h]

theorem symbolDivisorOf_ne_zero (info : MetaInfo) : symbolDivisorOf info ≠ 0 := by
  unfold symbolDivisorOf
  split <;> norm_num

theorem symbolMeta_divisor_ne_zero (inp : ExtractInput) (s : String) :
    (symbolMeta inp s).2.1 ≠ 0 := by
  unfold symbolMeta
  cases inp.metadata s with
  | none => norm_num
  | some info => exact symbolDivisorOf_ne_zero info

theorem countP_symbolOutput_self (inp : ExtractInput) (s : String) :
    (symbolOutput inp s).1.countP (fun r => r.Symbol == s)
      = (symbolOutput inp s).1.length := by
  rw [List.countP_eq_length]
  intro r hr
  have h := (mem_symbolOutput hr).2
  obtain ⟨rows, _, hsym, _⟩ := h
  simp [beq_iff_eq, hsym]

/-! ### The claims -/

/-- C2: modelling two consecutive runs as steps of the fatal-error state
machine (state = presence/absence of the tracking file, absence = Clear):
two failing runs starting from Clear send exactly one failure-notification
email and no recovery email across the two runs, and a failing run followed
by a clean run sends exactly one recovery-notification email across the two
runs and leaves the state Clear. -/
theorem fatal_error_two_run_dedup (m1 m2 : String) (s0 : Option String) :
    (s0 = none →
        (runStep s0 (some m1)).failEmails
            + (runStep (runStep s0 (some m1)).finalState (some m2)).failEmails = 1 ∧
          (runStep s0 (some m1)).recoveryEmails
            + (runStep (runStep s0 (some m1)).finalState (some m2)).recoveryEmails = 0) ∧
      ((runStep s0 (some m1)).recoveryEmails
          + (runStep (runStep s0 (some m1)).finalState none).recoveryEmails = 1 ∧
        (runStep (runStep s0 (some m1)).finalState none).finalState = none) := by
  cases s0 <;> simp [runStep]

/-- Witness for C2: both scenarios evaluated from the Clear state. -/
theorem fatal_error_two_run_dedup_witness :
    (none : Option String) = none ∧
      (runStep none (some "boom")).failEmails
          + (runStep (runStep none (some "boom")).finalState (some "boom")).failEmails = 1 :=
  ⟨rfl, ((fatal_error_two_run_dedup "boom" "boom" none).1 rfl).1⟩

/-- C3 (code bug): an error list carrying an invalid-interval message does
NOT make the fetch fatal.  Python `str` has no method `contains`, so the
check at src/main.py:116 raises AttributeError, the blanket except at
src/main.py:124 catches it, and src/main.py:127 returns the data, so
extraction proceeds — contradicting the intended fatal classification the
function's own log message announces. -/
theorem invalid_interval_error_returns_data :
    get_stock_data_errorCheck sampleIntervalErrors
        = GetStockDataResult.dataWithErrors sampleIntervalErrors ∧
      get_stock_data_errorCheck sampleIntervalErrors ≠ GetStockDataResult.noData := by
  constructor
  · decide
  · decide

/-- C4: no record emitted by extract_stock_data has Price 0; a bar whose
close is missing/NaN gets price 0.0 before the filter and therefore never
produces an output record. -/
theorem emitted_price_nonzero :
    (∀ inp : ExtractInput, ∀ r ∈ (extract_stock_data inp).1, r.Price ≠ 0) ∧
      ∀ (symbol : String) (name currency : Option String) (divisor : ℚ)
        (date : String) (rest : List Row),
        rowPrice divisor none = 0 ∧
          processRows symbol name currency divisor (Row.good date none :: rest)
            = processRows symbol name currency divisor rest := by
  constructor
  · intro inp r hr
    obtain ⟨s, _, hmem⟩ := mem_extract_records.mp hr
    obtain ⟨_, rows, _, _, _, _, hpz, _⟩ := mem_symbolOutput hmem
    exact hpz
  · intro symbol name currency divisor date rest
    exact ⟨rfl, processRows_good_none symbol name currency divisor date rest⟩

/-- Witness for C4: the record emitted for the single valid 100-valued bar of
the sample run has non-zero Price. -/
theorem emitted_price_nonzero_witness :
    (⟨"AAPL", "2024-01-02", none, none, (100 : ℚ)⟩ : PriceRecord).Price ≠ 0 :=
  emitted_price_nonzero.1 sampleMetaFail _
    (by simp [sampleMetaFail, extract_stock_data, extractStep, symbolOutput,
      symbolMeta, processRows, rowPrice, List.mergeSort])

/-- C5: for a symbol whose metadata lookup succeeded, when the raw currency
is the pence marker "GBp" every record emitted for the symbol has Price equal
to a raw close of the symbol's series divided by 100, and for any other raw
currency the divisor is 1, so Price equals a raw close unchanged; concretely
raw close 150 yields 3/2 (i.e. 1.50) under divisor 100 and 150 under divisor
1, the divisor being 100 for raw currency "GBp" and 1 for "USD". -/
theorem gbp_pence_division (inp : ExtractInput) (s : String) (info : MetaInfo)
    (hm : inp.metadata s = some info) :
    ((rawCurrencyOf info = "GBp" →
        ∀ r ∈ (extract_stock_data inp).1, r.Symbol = s →
          ∃ rows c, inp.data s = some rows ∧ Row.good r.Date (some c) ∈ rows ∧
            r.Price = c / 100) ∧
      (rawCurrencyOf info ≠ "GBp" →
        ∀ r ∈ (extract_stock_data inp).1, r.Symbol = s →
          ∃ rows c, inp.data s = some rows ∧ Row.good r.Date (some c) ∈ rows ∧
            r.Price = c)) ∧
      (150 : ℚ) / 100 = 3 / 2 ∧ (150 : ℚ) / 1 = 150 ∧
        symbolDivisorOf ⟨none, none, some "GBp"⟩ = 100 ∧
        symbolDivisorOf ⟨none, none, some "USD"⟩ = 1 := by
  refine ⟨⟨?_, ?_⟩, by norm_num, by norm_num, ?_, ?_⟩
  · intro hraw r hr hsym
    obtain ⟨t, _, hmem⟩ := mem_extract_records.mp hr
    obtain ⟨_, rows, hrows, hts, _, _, _, c, hc, hpr⟩ := mem_symbolOutput hmem
    have hts2 : t = s := hts.symm.trans hsym
    subst hts2
    refine ⟨rows, c, hrows, hc, ?_⟩
    rw [hpr]
    simp [symbolMeta, hm, symbolDivisorOf, hraw]
  · intro hraw r hr hsym
    obtain ⟨t, _, hmem⟩ := mem_extract_records.mp hr
    obtain ⟨_, rows, hrows, hts, _, _, _, c, hc, hpr⟩ := mem_symbolOutput hmem
    have hts2 : t = s := hts.symm.trans hsym
    subst hts2
    refine ⟨rows, c, hrows, hc, ?_⟩
    rw [hpr]
    simp [symbolMeta, hm, symbolDivisorOf, hraw]
  · simp [symbolDivisorOf, rawCurrencyOf]
  · simp [symbolDivisorOf, rawCurrencyOf]

/-- Witness for C5: in the pence sample run the emitted price 150/100 indeed
comes from the raw close 150 of the series, divided by 100. -/
theorem gbp_pence_division_witness :
    ∃ rows c, sampleGbp.data "BARC.L" = some rows ∧
      Row.good "2024-01-02" (some c) ∈ rows ∧ (150 : ℚ) / 100 = c / 100 := by
  have h := (gbp_pence_division sampleGbp "BARC.L" sampleGbpInfo rfl).1.1 rfl
    ⟨"BARC.L", "2024-01-02", some (symbolNameOf sampleGbpInfo),
      some (symbolCurrencyOf sampleGbpInfo), (150 : ℚ) / 100⟩
    (by simp [sampleGbp, sampleGbpInfo, extract_stock_data, extractStep, symbolOutput,
      symbolMeta, symbolDivisorOf, rawCurrencyOf, processRows, rowPrice, List.mergeSort])
    rfl
  exact h

/-- C6: a symbol named in the ProviderError list contributes no record to the
extraction output, whether or not the data holds bars for it. -/
theorem error_listed_symbol_not_in_output (inp : ExtractInput) (X : String)
    (h : ∃ e ∈ inp.errorList, e.Symbol = X) :
    ∀ r ∈ (extract_stock_data inp).1, r.Symbol ≠ X := by
  intro r hr hX
  obtain ⟨s, _, hmem⟩ := mem_extract_records.mp hr
  obtain ⟨hany, _, _, hsym, _⟩ := mem_symbolOutput hmem
  obtain ⟨e, he, heX⟩ := h
  have hsX : s = X := hsym.symm.trans hX
  have htrue : inp.errorList.any (fun e => e.Symbol == s) = true :=
    List.any_eq_true.mpr ⟨e, he, by simp [beq_iff_eq, heX, hsX]⟩
  rw [hany] at htrue
  exact Bool.noConfusion htrue

/-- Witness for C6: in the sample run whose error list names MSFT, the record
actually emitted (for AAPL) is not an MSFT record; the hypothesis that MSFT is
error-listed is discharged by evaluation. -/
theorem error_listed_symbol_not_in_output_witness :
    (⟨"AAPL", "2024-01-02", none, none, (100 : ℚ)⟩ : PriceRecord).Symbol ≠ "MSFT" :=
  error_listed_symbol_not_in_output sampleErrSkip "MSFT" (by decide) _
    (by simp [sampleErrSkip, extract_stock_data, extractStep, symbolOutput,
      symbolMeta, processRows, rowPrice, List.mergeSort])

/-- C7: when the metadata lookup of a symbol raises (one of the caught
exception kinds, modelled as `metadata s = none`), the records emitted for
that symbol carry null Name and null Currency and a price computed with
divisor 1, and the error count of the run never depends on metadata lookups
at all, so the failure does not increment error_count. -/
theorem metadata_failure_defaults (inp : ExtractInput) (s : String)
    (hm : inp.metadata s = none) :
    (∀ r ∈ (extract_stock_data inp).1, r.Symbol = s →
        r.Name = none ∧ r.Currency = none ∧
          ∃ rows c, inp.data s = some rows ∧ Row.good r.Date (some c) ∈ rows ∧
            r.Price = c / 1) ∧
      ∀ m2 : String → Option MetaInfo,
        (extract_stock_data { inp with metadata := m2 }).2
          = (extract_stock_data inp).2 := by
  constructor
  · intro r hr hsym
    obtain ⟨t, _, hmem⟩ := mem_extract_records.mp hr
    obtain ⟨_, rows, hrows, hts, hname, hcurr, _, c, hc, hpr⟩ := mem_symbolOutput hmem
    have hts2 : t = s := hts.symm.trans hsym
    subst hts2
    simp only [symbolMeta, hm] at hname hcurr hpr
    exact ⟨hname, hcurr, rows, c, hrows, hc, hpr⟩
  · intro m2
    rw [extract_stock_data_eq, extract_stock_data_eq]
    exact totalErrors_congr (symbolOutput_snd_metaFree inp m2) inp.symbols

/-- Witness for C7: in the sample run with a failing metadata lookup the
emitted record has null Name and Currency and its price is the raw close
divided by 1. -/
theorem metadata_failure_defaults_witness :
    (⟨"AAPL", "2024-01-02", none, none, (100 : ℚ)⟩ : PriceRecord).Name = none ∧
      ∃ rows c, sampleMetaFail.data "AAPL" = some rows ∧
        Row.good "2024-01-02" (some c) ∈ rows ∧ (100 : ℚ) = c / 1 := by
  have h := (metadata_failure_defaults sampleMetaFail "AAPL" rfl).1
    ⟨"AAPL", "2024-01-02", none, none, (100 : ℚ)⟩
    (by simp [sampleMetaFail, extract_stock_data, extractStep, symbolOutput,
      symbolMeta, processRows, rowPrice, List.mergeSort])
    rfl
  exact ⟨h.1, h.2.2⟩

theorem countP_symbolOutput_update (inp : ExtractInput) (s : String) (info : MetaInfo) :
    ((symbolOutput { inp with metadata := fun t => if t = s then none else inp.metadata t } s).1.countP
        (fun r => r.Symbol == s))
      = ((symbolOutput { inp with metadata := fun t => if t = s then some info else inp.metadata t } s).1.countP
        (fun r => r.Symbol == s)) := by
  rw [countP_symbolOutput_self, countP_symbolOutput_self]
  unfold symbolOutput
  cases hany : inp.errorList.any (fun e => e.Symbol == s) with
  | true => simp [hany]
  | false =>
    simp only [hany, Bool.false_eq_true, if_false]
    cases hd : inp.data s with
    | none => simp [hd]
    | some rows =>
      have h1 := processRows_fst_length s rows none none 1
        (some (symbolNameOf info)) (some (symbolCurrencyOf info)) (symbolDivisorOf info)
        one_ne_zero (symbolDivisorOf_ne_zero info)
      simpa [hd, symbolMeta] using h1

/-- C8: a failing metadata lookup for a symbol (relative to a run where the
lookup succeeds with any info) neither reduces the number of records emitted
for that symbol nor changes the error count; together with the fact that the
embedding of the loop is a total function on the modelled failure, no
exception escapes the extraction because of the lookup failure. -/
theorem metadata_failure_preserves_records (inp : ExtractInput) (s : String) (info : MetaInfo) :
    ((extract_stock_data { inp with metadata := fun t => if t = s then none else inp.metadata t }).1.countP
        (fun r => r.Symbol == s))
      = ((extract_stock_data { inp with metadata := fun t => if t = s then some info else inp.metadata t }).1.countP
        (fun r => r.Symbol == s)) ∧
      (extract_stock_data { inp with metadata := fun t => if t = s then none else inp.metadata t }).2
        = (extract_stock_data { inp with metadata := fun t => if t = s then some info else inp.metadata t }).2 := by
  constructor
  · rw [extract_stock_data_eq, extract_stock_data_eq]
    rw [List.Perm.countP_eq _ (List.mergeSort_perm _ recordKeyLE),
      List.Perm.countP_eq _ (List.mergeSort_perm _ recordKeyLE)]
    apply countP_allRecords_congr
    intro t
    by_cases ht : t = s
    · subst ht
      exact countP_symbolOutput_update inp t info
    · rw [symbolOutput_meta_update_ne _ ht, symbolOutput_meta_update_ne _ ht]
  · rw [extract_stock_data_eq, extract_stock_data_eq]
    have h1 := totalErrors_congr
      (symbolOutput_snd_metaFree inp (fun t => if t = s then none else inp.metadata t))
      inp.symbols
    have h2 := totalErrors_congr
      (symbolOutput_snd_metaFree inp (fun t => if t = s then some info else inp.metadata t))
      inp.symbols
    exact h1.trans h2.symm

/-- Witness for C8: the count equality evaluated at the concrete one-symbol
sample run, comparing a failing lookup against a successful one. -/
theorem metadata_failure_preserves_records_witness :
    ((extract_stock_data { sampleMetaFail with metadata := fun t =>
          (if t = "AAPL" then none else sampleMetaFail.metadata t) }).1.countP
        (fun r => r.Symbol == "AAPL"))
      = ((extract_stock_data { sampleMetaFail with metadata := fun t =>
          (if t = "AAPL" then some sampleGbpInfo else sampleMetaFail.metadata t) }).1.countP
        (fun r => r.Symbol == "AAPL")) :=
  (metadata_failure_preserves_records sampleMetaFail "AAPL" sampleGbpInfo).1

/-- C9: when a symbol's rows raise at some row (a `bad` row after the good
prefix `rows`), relative to the same run whose data for that symbol holds
only the good prefix: the record output of the whole run is identical (the
earlier records of the symbol are retained, the remaining rows contribute
nothing, and the other symbols are unaffected), and error_count is exactly
one larger. -/
theorem row_error_aborts_symbol (inp : ExtractInput) (s : String)
    (rows rest : List Row)
    (hdata : inp.data s = some (rows ++ Row.bad :: rest))
    (hnb : Row.bad ∉ rows)
    (herr : inp.errorList.any (fun e => e.Symbol == s) = false)
    (hcount : inp.symbols.count s = 1) :
    (extract_stock_data { inp with data := fun t => if t = s then some rows else inp.data t }).1
      = (extract_stock_data inp).1 ∧
      (extract_stock_data inp).2
        = (extract_stock_data { inp with data := fun t => if t = s then some rows else inp.data t }).2 + 1 := by
  have hrec : ∀ t,
      (symbolOutput { inp with data := fun u => if u = s then some rows else inp.data u } t).1
        = (symbolOutput inp t).1 := by
    intro t
    by_cases ht : t = s
    · subst ht
      unfold symbolOutput
      simp [symbolMeta, herr, hdata, processRows_append_bad hnb]
    · exact congrArg Prod.fst (symbolOutput_data_update_ne _ ht)
  have hne : ∀ t, t ≠ s →
      (symbolOutput inp t).2
        = (symbolOutput { inp with data := fun u => if u = s then some rows else inp.data u } t).2 :=
    fun t ht => (congrArg Prod.snd (symbolOutput_data_update_ne _ ht)).symm
  have h1 : (symbolOutput inp s).2 = true := by
    unfold symbolOutput
    simp [herr, hdata, processRows_append_bad hnb]
  have h2 : (symbolOutput { inp with data := fun u => if u = s then some rows else inp.data u } s).2
      = false := by
    unfold symbolOutput
    simp [herr, processRows_snd_false hnb]
  constructor
  · rw [extract_stock_data_eq, extract_stock_data_eq]
    have hall := allRecords_congr hrec inp.symbols
    exact congrArg (fun l => (l.mergeSort recordKeyLE, (0 : Nat)).1) hall
  · rw [extract_stock_data_eq, extract_stock_data_eq]
    have hoff := totalErrors_offset hne h1 h2 inp.symbols
    simpa [hcount] using hoff

/-- Witness for C9 at the sample run whose AAPL frame raises on its second
row: the truncated run yields the same records and one fewer error. -/
theorem row_error_aborts_symbol_witness :
    (extract_stock_data { sampleRowErr with data := fun t =>
          (if t = "AAPL" then some [Row.good "2024-01-02" (some 10)]
            else sampleRowErr.data t) }).1
        = (extract_stock_data sampleRowErr).1 ∧
      (extract_stock_data sampleRowErr).2
        = (extract_stock_data { sampleRowErr with data := fun t =>
            (if t = "AAPL" then some [Row.good "2024-01-02" (some 10)]
              else sampleRowErr.data t) }).2 + 1 :=
  row_error_aborts_symbol sampleRowErr "AAPL"
    [Row.good "2024-01-02" (some 10)] [Row.good "2024-01-03" (some 20)]
    (by simp [sampleRowErr]) (by decide) (by simp [sampleRowErr]) (by decide)

/-- C10: for a symbol whose metadata lookup succeeds with raw currency
exactly "GBp", every record emitted for that symbol carries the Currency
string "GBP" (the raw currency uppercased), while the divisor chosen before
the relabeling is 100. -/
theorem gbp_currency_relabeled (inp : ExtractInput) (s : String) (info : MetaInfo)
    (hm : inp.metadata s = some info) (hc : info.currency = some "GBp") :
    (∀ r ∈ (extract_stock_data inp).1, r.Symbol = s → r.Currency = some "GBP") ∧
      symbolDivisorOf info = 100 := by
  have hraw : rawCurrencyOf info = "GBp" := by simp [rawCurrencyOf, hc]
  have hup : symbolCurrencyOf info = "GBP" := by
    rw [symbolCurrencyOf, hraw]
    decide
  constructor
  · intro r hr hsym
    obtain ⟨t, _, hmem⟩ := mem_extract_records.mp hr
    obtain ⟨_, rows, _, hts, _, hcurr, _⟩ := mem_symbolOutput hmem
    have hts2 : t = s := hts.symm.trans hsym
    subst hts2
    rw [hcurr]
    simp [symbolMeta, hm, hup]
  · simp [symbolDivisorOf, hraw]

/-- Witness for C10: the record emitted in the pence sample run carries the
relabeled Currency "GBP". -/
theorem gbp_currency_relabeled_witness :
    (⟨"BARC.L", "2024-01-02", some (symbolNameOf sampleGbpInfo),
        some (symbolCurrencyOf sampleGbpInfo), (150 : ℚ) / 100⟩ : PriceRecord).Currency
      = some "GBP" :=
  (gbp_currency_relabeled sampleGbp "BARC.L" sampleGbpInfo rfl rfl).1 _
    (by simp [sampleGbp, sampleGbpInfo, extract_stock_data, extractStep, symbolOutput,
      symbolMeta, symbolDivisorOf, rawCurrencyOf, processRows, rowPrice, List.mergeSort])
    rfl

end YahooFinance
